import Mathlib

/-!
Verification development for the privacy-preserving synthesis pipeline of
the Pratibimba documentation site: the k-anonymity enforcer, the privacy
budget ledger, the Gaussian-copula correlation model, and the regulatory
compliance map of the privacy certificate.  The repository ships only the
documentation of these components (code snippets and contracts); every
definition below is therefore modelled from the specification text, as
noted in each doc comment.
-/

namespace Pratibimba

/-- Modelled from the spec: a cell value of a Table is either numeric or
categorical ("each column typed numeric or categorical").  Numerics are
rationals (exact surrogate for the floating-point values of the absent
Python implementation). -/
inductive Value
  | num (q : ℚ)
  | cat (s : String)
deriving DecidableEq, Repr

/-- Modelled from the spec: a row of a Table, as an association list from
column name to value (the spec's "ordered sequence of named columns" viewed
row-wise). -/
abbrev Row := List (String × Value)

/-- Modelled from the spec: a Table is its list of rows. -/
abbrev Table := List Row

/-- Look up the value of column `c` in row `r` (first matching column). -/
def lookupVal (r : Row) (c : String) : Option Value :=
  (r.find? (fun p => p.1 == c)).map (fun p => p.2)

/-- Modelled from the spec: the quasi-identifier projection of a row — the
tuple of its values at the quasi-identifying columns ("group rows by the
tuple of (possibly generalized) quasi-identifier values"). -/
def qiProj (qis : List String) (r : Row) : List (Option Value) :=
  qis.map (fun c => lookupVal r c)

/-- The non-quasi-identifier part of a row: the pairs whose column is not a
quasi-identifier. -/
def dropQI (qis : List String) (r : Row) : Row :=
  r.filter (fun p => !(qis.contains p.1))

/-- Modelled from the spec: the size of the equivalence class of row `r`
inside table `t` under the quasi-identifier projection ("class size = group
cardinality"). -/
def classSize (t : Table) (qis : List String) (r : Row) : ℕ :=
  (t.filter (fun x => decide (qiProj qis x = qiProj qis r))).length

/-- Modelled from the spec: the minimum equivalence-class size over a table
("initial-k = minimum group size across the table"); an empty table reports
0 ("final-k reported as 0" once all rows are suppressed).  Implemented as a
fold with the row count as the seed, which equals the honest minimum on a
nonempty table because no class exceeds the row count. -/
def minClassSize (t : Table) (qis : List String) : ℕ :=
  (t.map (fun r => classSize t qis r)).foldr min t.length

/-- Modelled from the spec: numeric values of column `c` across the table. -/
def colNumVals (t : Table) (c : String) : List ℚ :=
  t.filterMap (fun r =>
    match lookupVal r c with
    | some (Value.num q) => some q
    | _ => none)

/-- Minimum of a list of rationals (0 on the empty list). -/
def qListMin : List ℚ → ℚ
  | [] => 0
  | x :: xs => xs.foldl min x

/-- Maximum of a list of rationals (0 on the empty list). -/
def qListMax : List ℚ → ℚ
  | [] => 0
  | x :: xs => xs.foldl max x

/-- Modelled from the spec: deterministic equal-width banding of a numeric
value over `[mn, mx]` into `bands` buckets ("replace each numeric
quasi-identifier value with its containing bucket (equal-width ... bands,
band count tunable); deterministic mapping").  The spec leaves the exact
binning rule open; equal-width is chosen and documented here. -/
def bandOf (mn mx : ℚ) (bands : ℕ) (v : ℚ) : ℕ :=
  if mx ≤ mn then 0
  else min (Int.toNat (Rat.floor ((v - mn) * bands / (mx - mn)))) (bands - 1)

/-- Modelled from the spec, pass 1: numerical generalization — every
numeric quasi-identifier value is replaced by its band label; other columns
and categorical values are untouched. -/
def numGeneralize (t : Table) (qis : List String) (bands : ℕ) : Table :=
  t.map (fun r => r.map (fun p =>
    if qis.contains p.1 then
      match p.2 with
      | Value.num q =>
          (p.1, Value.num (bandOf (qListMin (colNumVals t p.1))
                                  (qListMax (colNumVals t p.1)) bands q))
      | v => (p.1, v)
    else p))

/-- Count of rows whose column `c` holds the categorical value `s`. -/
def catCount (t : Table) (c : String) (s : String) : ℕ :=
  (t.filter (fun r => decide (lookupVal r c = some (Value.cat s)))).length

/-- Modelled from the spec, pass 2: categorical generalization — values of
a categorical quasi-identifier whose frequency is below the target `k` are
collapsed into a shared "Other" label ("merge categories with count <
targetK"). -/
def catGeneralize (t : Table) (qis : List String) (targetK : ℕ) : Table :=
  t.map (fun r => r.map (fun p =>
    if qis.contains p.1 then
      match p.2 with
      | Value.cat s =>
          if catCount t p.1 s < targetK then (p.1, Value.cat "Other")
          else (p.1, Value.cat s)
      | v => (p.1, v)
    else p))

/-- The rows of `t` in the equivalence class of `r`. -/
def classRows (t : Table) (qis : List String) (r : Row) : Table :=
  t.filter (fun x => decide (qiProj qis x = qiProj qis r))

/-- Mean of a list of rationals (0 on the empty list). -/
def qMean (l : List ℚ) : ℚ :=
  if l.length = 0 then 0 else l.sum / l.length

/-- Mean of the numeric values of column `c` within the class of `r`. -/
def classNumMean (t : Table) (qis : List String) (r : Row) (c : String) : ℚ :=
  qMean (colNumVals (classRows t qis r) c)

/-- Most frequent element of a list of strings, earliest occurrence
breaking ties; "" on the empty list. -/
def modeOf (l : List String) : String :=
  match l with
  | [] => ""
  | x :: _ => l.foldl (fun best s => if l.count best < l.count s then s else best) x

/-- Categorical values of column `c` across the table. -/
def colCatVals (t : Table) (c : String) : List String :=
  t.filterMap (fun r =>
    match lookupVal r c with
    | some (Value.cat s) => some s
    | _ => none)

/-- Mode of the categorical values of column `c` within the class of `r`. -/
def classCatMode (t : Table) (qis : List String) (r : Row) (c : String) : String :=
  modeOf (colCatVals (classRows t qis r) c)

/-- Modelled from the spec, pass 3: micro-aggregation — within each
still-noncompliant equivalence class, numeric quasi-identifier values are
replaced by the class mean and categorical ones by the class mode, "without
changing row count". -/
def microAggregate (t : Table) (qis : List String) (targetK : ℕ) : Table :=
  t.map (fun r =>
    if classSize t qis r < targetK then
      r.map (fun p =>
        if qis.contains p.1 then
          match p.2 with
          | Value.num _ => (p.1, Value.num (classNumMean t qis r p.1))
          | Value.cat _ => (p.1, Value.cat (classCatMode t qis r p.1))
        else p)
    else r)

/-- Modelled from the spec, pass 4: suppression — "remove rows belonging to
equivalence classes still smaller than targetK ... until all remaining
classes satisfy targetK or the table is empty".  Removing one class never
changes another class's membership, so this is the filter keeping exactly
the rows of large-enough classes. -/
def suppress (t : Table) (qis : List String) (targetK : ℕ) : Table :=
  t.filter (fun r => decide (targetK ≤ classSize t qis r))

/-- Modelled from the spec: the EnforcementReport — initial-k, final-k, the
transformation passes applied, the count of suppressed rows, and the
compliance flag (final-k ≥ target-k). -/
structure EnforcementReport where
  initialK : ℕ
  finalK : ℕ
  transformationsApplied : List String
  recordsSuppressed : ℕ
  compliant : Bool
deriving DecidableEq, Repr

/-- Modelled from the spec: `enforce(table, quasiIdentifiers, targetK)` —
the multi-pass k-anonymity enforcer, applying numerical generalization,
categorical generalization, micro-aggregation and suppression in that fixed
order, re-evaluating equivalence classes after each pass and stopping as
soon as compliance (final-k ≥ targetK) is reached; the band count is fixed
at 5 (spec: "band count tunable — e.g., 5-year age bands"). -/
def enforce (t : Table) (qis : List String) (targetK : ℕ) :
    Table × EnforcementReport :=
  let k0 := minClassSize t qis
  if targetK ≤ k0 then (t, ⟨k0, k0, [], 0, true⟩)
  else
    let t1 := numGeneralize t qis 5
    let k1 := minClassSize t1 qis
    if targetK ≤ k1 then
      (t1, ⟨k0, k1, ["numerical_generalization"], 0, true⟩)
    else
      let t2 := catGeneralize t1 qis targetK
      let k2 := minClassSize t2 qis
      if targetK ≤ k2 then
        (t2, ⟨k0, k2, ["numerical_generalization", "categorical_generalization"], 0, true⟩)
      else
        let t3 := microAggregate t2 qis targetK
        let k3 := minClassSize t3 qis
        if targetK ≤ k3 then
          (t3, ⟨k0, k3,
            ["numerical_generalization", "categorical_generalization",
             "micro_aggregation"], 0, true⟩)
        else
          let t4 := suppress t3 qis targetK
          let k4 := minClassSize t4 qis
          (t4, ⟨k0, k4,
            ["numerical_generalization", "categorical_generalization",
             "micro_aggregation", "suppression"],
            t3.length - t4.length, decide (targetK ≤ k4)⟩)

/-! Helper lemmas about the fold computing the minimum class size. -/

theorem foldr_min_le_seed (l : List ℕ) (a : ℕ) : l.foldr min a ≤ a := by
  induction l with
  | nil => exact Nat.le_refl a
  | cons x xs ih => exact Nat.le_trans (Nat.min_le_right x (xs.foldr min a)) ih

theorem foldr_min_le_mem {l : List ℕ} {x : ℕ} (a : ℕ) (hx : x ∈ l) :
    l.foldr min a ≤ x := by
  induction l with
  | nil => cases hx
  | cons y ys ih =>
    rcases List.mem_cons.1 hx with h | h
    · exact h ▸ Nat.min_le_left y (ys.foldr min a)
    · exact Nat.le_trans (Nat.min_le_right y (ys.foldr min a)) (ih h)

theorem le_foldr_min {l : List ℕ} {k a : ℕ} (ha : k ≤ a)
    (hl : ∀ x ∈ l, k ≤ x) : k ≤ l.foldr min a := by
  induction l with
  | nil => exact ha
  | cons y ys ih =>
    exact Nat.le_min.2 ⟨hl y (List.mem_cons_self y ys),
      ih (fun x hx => hl x (List.mem_cons_of_mem y hx))⟩

theorem classSize_le_length (t : Table) (qis : List String) (r : Row) :
    classSize t qis r ≤ t.length :=
  List.length_filter_le _ _

theorem minClassSize_le_length (t : Table) (qis : List String) :
    minClassSize t qis ≤ t.length :=
  foldr_min_le_seed _ _

theorem minClassSize_le_classSize {t : Table} {qis : List String} {r : Row}
    (hr : r ∈ t) : minClassSize t qis ≤ classSize t qis r :=
  foldr_min_le_mem _ (List.mem_map_of_mem _ hr)

theorem le_minClassSize {t : Table} {qis : List String} {k : ℕ}
    (hlen : k ≤ t.length) (h : ∀ r ∈ t, k ≤ classSize t qis r) :
    k ≤ minClassSize t qis := by
  refine le_foldr_min hlen ?_
  intro x hx
  rcases List.mem_map.1 hx with ⟨r, hr, rfl⟩
  exact h r hr

theorem forall_class_of_min {u : Table} {qis : List String} {k : ℕ}
    (h : k ≤ minClassSize u qis) : ∀ r ∈ u, k ≤ classSize u qis r :=
  fun r hr => Nat.le_trans h (minClassSize_le_classSize hr)

theorem classSize_congr {t : Table} {qis : List String} {a b : Row}
    (h : qiProj qis a = qiProj qis b) :
    classSize t qis a = classSize t qis b := by
  unfold classSize
  congr 1
  apply List.filter_congr
  intro x _
  simp [h]

theorem mem_suppress {t : Table} {qis : List String} {k : ℕ} {r : Row} :
    r ∈ suppress t qis k ↔ r ∈ t ∧ k ≤ classSize t qis r := by
  simp [suppress, List.mem_filter]

theorem classSize_suppress {t : Table} {qis : List String} {k : ℕ} {r : Row}
    (hr : r ∈ suppress t qis k) :
    classSize (suppress t qis k) qis r = classSize t qis r := by
  have hk : k ≤ classSize t qis r := (mem_suppress.1 hr).2
  show (List.filter _ (List.filter _ t)).length = classSize t qis r
  rw [List.filter_filter]
  unfold classSize
  congr 1
  apply List.filter_congr
  intro a _
  by_cases hpa : qiProj qis a = qiProj qis r
  · simp only [hpa]
    simp
    exact hk
  · simp [hpa]

theorem suppress_min {t : Table} {qis : List String} {k : ℕ}
    (hne : suppress t qis k ≠ []) :
    k ≤ minClassSize (suppress t qis k) qis := by
  obtain ⟨r, hr⟩ := List.exists_mem_of_ne_nil _ hne
  have hcs : k ≤ classSize (suppress t qis k) qis r := by
    rw [classSize_suppress hr]; exact (mem_suppress.1 hr).2
  refine le_minClassSize (Nat.le_trans hcs (classSize_le_length _ _ _)) ?_
  intro x hx
  rw [classSize_suppress hx]
  exact (mem_suppress.1 hx).2

theorem length_numGeneralize (t : Table) (qis : List String) (b : ℕ) :
    (numGeneralize t qis b).length = t.length :=
  List.length_map _ _

theorem length_catGeneralize (t : Table) (qis : List String) (k : ℕ) :
    (catGeneralize t qis k).length = t.length :=
  List.length_map _ _

theorem length_microAggregate (t : Table) (qis : List String) (k : ℕ) :
    (microAggregate t qis k).length = t.length :=
  List.length_map _ _

theorem length_suppress_le (t : Table) (qis : List String) (k : ℕ) :
    (suppress t qis k).length ≤ t.length :=
  List.length_filter_le _ _

theorem not_compliant_of_short {u : Table} {qis : List String} {k : ℕ}
    (h : u.length < k) : ¬ k ≤ minClassSize u qis :=
  fun hc => absurd (Nat.le_trans hc (minClassSize_le_length u qis)) (Nat.not_le.2 h)

theorem dropQI_map_of {qis : List String} {f : String × Value → String × Value}
    (hfst : ∀ p, (f p).1 = p.1)
    (hout : ∀ p, p.1 ∉ qis → f p = p) :
    ∀ r : Row, dropQI qis (r.map f) = dropQI qis r := by
  intro r
  induction r with
  | nil => rfl
  | cons p rs ih =>
    unfold dropQI at ih ⊢
    simp only [List.map_cons, List.filter_cons, hfst p]
    by_cases hm : p.1 ∈ qis
    · simpa [hm] using ih
    · simp only [hout p hm]
      simpa [hm] using ih

theorem originate_map {qis : List String} {g : Row → Row} {t : Table} {r : Row}
    (hg : ∀ r₀ ∈ t, dropQI qis (g r₀) = dropQI qis r₀)
    (hr : r ∈ t.map g) : ∃ r₀ ∈ t, dropQI qis r = dropQI qis r₀ := by
  rcases List.mem_map.1 hr with ⟨r₀, h₀, rfl⟩
  exact ⟨r₀, h₀, hg r₀ h₀⟩

theorem numGeneralize_originate {t : Table} {qis : List String} {b : ℕ} {r : Row}
    (hr : r ∈ numGeneralize t qis b) :
    ∃ r₀ ∈ t, dropQI qis r = dropQI qis r₀ := by
  refine originate_map (fun r₀ _ => ?_) hr
  apply dropQI_map_of
  · rintro ⟨c, v⟩
    cases v <;> simp [apply_ite (Prod.fst)]
  · rintro ⟨c, v⟩ hm
    simp at hm
    simp [hm]

theorem catGeneralize_originate {t : Table} {qis : List String} {k : ℕ} {r : Row}
    (hr : r ∈ catGeneralize t qis k) :
    ∃ r₀ ∈ t, dropQI qis r = dropQI qis r₀ := by
  refine originate_map (fun r₀ _ => ?_) hr
  apply dropQI_map_of
  · rintro ⟨c, v⟩
    cases v <;> simp [apply_ite (Prod.fst)]
  · rintro ⟨c, v⟩ hm
    simp at hm
    simp [hm]

theorem microAggregate_originate {t : Table} {qis : List String} {k : ℕ} {r : Row}
    (hr : r ∈ microAggregate t qis k) :
    ∃ r₀ ∈ t, dropQI qis r = dropQI qis r₀ := by
  unfold microAggregate at hr
  refine originate_map (fun r₀ _ => ?_) hr
  by_cases hcl : classSize t qis r₀ < k
  · rw [if_pos hcl]
    apply dropQI_map_of
    · rintro ⟨c, v⟩
      cases v <;> simp [apply_ite (Prod.fst)]
    · rintro ⟨c, v⟩ hm
      simp at hm
      simp [hm]
  · rw [if_neg hcl]

/-- A small concrete table used to instantiate the enforcement theorems:
two rows agreeing on the quasi-identifier column "age". -/
def exT : Table :=
  [[("age", Value.num 30), ("pay", Value.cat "on")],
   [("age", Value.num 30), ("pay", Value.cat "off")]]

/-- Claim C1: for every input table, quasi-identifier set and targetK, in
the table returned by `enforce` every remaining (non-suppressed) row
belongs to an equivalence class, under the quasi-identifier projection, of
size at least targetK; equivalently the minimum equivalence-class size over
the returned table is ≥ targetK whenever any row remains. -/
theorem enforce_min_class_ge_targetK (t : Table) (qis : List String) (targetK : ℕ) :
    (∀ r ∈ (enforce t qis targetK).1,
        targetK ≤ classSize (enforce t qis targetK).1 qis r) ∧
    ((enforce t qis targetK).1 ≠ [] →
        targetK ≤ minClassSize (enforce t qis targetK).1 qis) := by
  simp only [enforce]
  split_ifs with h0 h1 h2 h3 <;> dsimp only
  · exact ⟨forall_class_of_min h0, fun _ => h0⟩
  · exact ⟨forall_class_of_min h1, fun _ => h1⟩
  · exact ⟨forall_class_of_min h2, fun _ => h2⟩
  · exact ⟨forall_class_of_min h3, fun _ => h3⟩
  · constructor
    · intro r hr
      rw [classSize_suppress hr]
      exact (mem_suppress.1 hr).2
    · intro hne
      exact suppress_min hne

/-- Concrete instance of the C1 theorem on `exT`. -/
theorem enforce_min_class_ge_targetK_witness :
    (2 : ℕ) ≤ minClassSize (enforce exT ["age"] 2).1 ["age"] :=
  (enforce_min_class_ge_targetK exT ["age"] 2).2 (by decide)

/-- Claim C5: `enforce` on an already-compliant table (minimum
equivalence-class size ≥ targetK before any pass) applies zero
transformation passes and returns the input table unchanged. -/
theorem enforce_idempotent_on_compliant (t : Table) (qis : List String)
    (targetK : ℕ) (h : targetK ≤ minClassSize t qis) :
    (enforce t qis targetK).1 = t ∧
    (enforce t qis targetK).2.transformationsApplied = [] ∧
    (enforce t qis targetK).2.recordsSuppressed = 0 := by
  simp [enforce, h]

/-- Concrete instance of the C5 theorem on the compliant table `exT`. -/
theorem enforce_idempotent_on_compliant_witness :
    (enforce exT ["age"] 2).1 = exT ∧
    (enforce exT ["age"] 2).2.transformationsApplied = [] ∧
    (enforce exT ["age"] 2).2.recordsSuppressed = 0 :=
  enforce_idempotent_on_compliant exT ["age"] 2 (by decide)

/-- Claim C4: when targetK exceeds the table's row count, `enforce` (a
total function, so it never throws) suppresses all rows, reports final-k =
0, and reports compliance = false. -/
theorem enforce_above_rowcount_suppresses_all (t : Table) (qis : List String)
    (targetK : ℕ) (h : t.length < targetK) :
    (enforce t qis targetK).1 = [] ∧
    (enforce t qis targetK).2.finalK = 0 ∧
    (enforce t qis targetK).2.compliant = false := by
  have h0 : ¬ targetK ≤ minClassSize t qis := not_compliant_of_short h
  have l1 : (numGeneralize t qis 5).length = t.length := length_numGeneralize t qis 5
  have h1 : ¬ targetK ≤ minClassSize (numGeneralize t qis 5) qis :=
    not_compliant_of_short (by rw [l1]; exact h)
  have l2 : (catGeneralize (numGeneralize t qis 5) qis targetK).length = t.length := by
    rw [length_catGeneralize, l1]
  have h2 : ¬ targetK ≤
      minClassSize (catGeneralize (numGeneralize t qis 5) qis targetK) qis :=
    not_compliant_of_short (by rw [l2]; exact h)
  have l3 : (microAggregate (catGeneralize (numGeneralize t qis 5) qis targetK)
      qis targetK).length = t.length := by
    rw [length_microAggregate, l2]
  have h3 : ¬ targetK ≤ minClassSize (microAggregate (catGeneralize
      (numGeneralize t qis 5) qis targetK) qis targetK) qis :=
    not_compliant_of_short (by rw [l3]; exact h)
  have hsup : suppress (microAggregate (catGeneralize (numGeneralize t qis 5)
      qis targetK) qis targetK) qis targetK = [] := by
    apply List.filter_eq_nil_iff.2
    intro r hr hk
    have hk2 : targetK ≤ classSize (microAggregate (catGeneralize
        (numGeneralize t qis 5) qis targetK) qis targetK) qis r :=
      of_decide_eq_true hk
    have hk3 := Nat.le_trans hk2 (classSize_le_length _ _ _)
    rw [l3] at hk3
    omega
  simp only [enforce]
  rw [if_neg h0, if_neg h1, if_neg h2, if_neg h3]
  dsimp only
  rw [hsup]
  refine ⟨rfl, rfl, ?_⟩
  show decide (targetK ≤ minClassSize ([] : Table) qis) = false
  have hz : minClassSize ([] : Table) qis = 0 := rfl
  rw [hz]
  exact decide_eq_false (by omega)

/-- Concrete instance of the C4 theorem: target 3 on the 2-row `exT`. -/
theorem enforce_above_rowcount_suppresses_all_witness :
    (enforce exT ["age"] 3).1 = [] ∧
    (enforce exT ["age"] 3).2.finalK = 0 ∧
    (enforce exT ["age"] 3).2.compliant = false :=
  enforce_above_rowcount_suppresses_all exT ["age"] 3 (by decide)

/-- Claim C10: the row count of the table returned by `enforce` plus the
reported suppressed-row count equals the input row count, and every
returned row originates from an input row with its non-quasi-identifier
columns unchanged. -/
theorem enforce_row_conservation (t : Table) (qis : List String) (targetK : ℕ) :
    (enforce t qis targetK).1.length +
        (enforce t qis targetK).2.recordsSuppressed = t.length ∧
    ∀ r ∈ (enforce t qis targetK).1,
        ∃ r₀ ∈ t, dropQI qis r = dropQI qis r₀ := by
  simp only [enforce]
  split_ifs with h0 h1 h2 h3 <;> dsimp only
  · exact ⟨by simp, fun r hr => ⟨r, hr, rfl⟩⟩
  · refine ⟨by simp [length_numGeneralize], ?_⟩
    intro r hr
    exact numGeneralize_originate hr
  · refine ⟨by simp [length_catGeneralize, length_numGeneralize], ?_⟩
    intro r hr
    obtain ⟨r1, hr1, e1⟩ := catGeneralize_originate hr
    obtain ⟨r0, hr0, e0⟩ := numGeneralize_originate hr1
    exact ⟨r0, hr0, e1.trans e0⟩
  · refine ⟨by simp [length_microAggregate, length_catGeneralize,
      length_numGeneralize], ?_⟩
    intro r hr
    obtain ⟨r2, hr2, e2⟩ := microAggregate_originate hr
    obtain ⟨r1, hr1, e1⟩ := catGeneralize_originate hr2
    obtain ⟨r0, hr0, e0⟩ := numGeneralize_originate hr1
    exact ⟨r0, hr0, (e2.trans e1).trans e0⟩
  · constructor
    · rw [Nat.add_sub_cancel' (length_suppress_le _ _ _)]
      simp [length_microAggregate, length_catGeneralize, length_numGeneralize]
    · intro r hr
      have hr3 := (mem_suppress.1 hr).1
      obtain ⟨r2, hr2, e2⟩ := microAggregate_originate hr3
      obtain ⟨r1, hr1, e1⟩ := catGeneralize_originate hr2
      obtain ⟨r0, hr0, e0⟩ := numGeneralize_originate hr1
      exact ⟨r0, hr0, (e2.trans e1).trans e0⟩

/-- Concrete instance of the C10 theorem on `exT`. -/
theorem enforce_row_conservation_witness :
    (enforce exT ["age"] 3).1.length +
        (enforce exT ["age"] 3).2.recordsSuppressed = exT.length :=
  (enforce_row_conservation exT ["age"] 3).1

/-! ## Privacy budget ledger -/

/-- Modelled from the spec: one recorded consumption — "(epsilon,
operation-label, actor, timestamp) entries".  The timestamp is the entry's
position in the log (the implementation's wall clock is external I/O). -/
structure BudgetEntry where
  epsilon : ℚ
  opLabel : String
  actor : String
  timestamp : ℕ
deriving DecidableEq, Repr

/-- Modelled from the spec: the per-dataset BudgetState — total budget `B`,
cumulative spent, the entry log, warning threshold fraction, and the
auto-pause flag.  Only the sequential composition strategy is modelled
(total spent is the arithmetic sum of all entries); the advanced and Rényi
strategies use √, ln and e^ε and are outside this rational embedding. -/
structure PrivacyBudgetManager where
  datasetId : String
  totalBudget : ℚ
  warningThreshold : ℚ
  autoPause : Bool
  spent : ℚ
  entries : List BudgetEntry
deriving DecidableEq, Repr

/-- Modelled from the spec: a fresh ledger for a dataset identifier, with
zero spent and an empty log. -/
def mkManager (dsid : String) (b w : ℚ) (ap : Bool) : PrivacyBudgetManager :=
  ⟨dsid, b, w, ap, 0, []⟩

/-- Outcome of a `consume` call: rejected with `BudgetExhaustedError`, or
accepted together with the warning signal ("a warning signal when
`remaining/B < w` after the consumption"). -/
inductive ConsumeOutcome
  | exhausted
  | accepted (warning : Bool)
deriving DecidableEq, Repr

/-- Modelled from the spec: `consume(epsilon, operationLabel, actor)` —
rejected with no state change if auto-pause is enabled and
`spent + epsilon > B`; otherwise the entry is recorded, spent is
incremented by epsilon (even past `B` when auto-pause is disabled), and the
warning signal is computed from the remaining fraction. -/
def consume (m : PrivacyBudgetManager) (eps : ℚ) (op actor : String) :
    ConsumeOutcome × PrivacyBudgetManager :=
  if m.autoPause ∧ m.totalBudget < m.spent + eps then
    (ConsumeOutcome.exhausted, m)
  else
    let m2 : PrivacyBudgetManager :=
      { m with
        spent := m.spent + eps
        entries := m.entries ++ [⟨eps, op, actor, m.entries.length⟩] }
    (ConsumeOutcome.accepted
      (decide ((m2.totalBudget - m2.spent) / m2.totalBudget < m.warningThreshold)),
     m2)

/-- Modelled from the spec: the status snapshot returned by `getStatus()` —
spent, remaining, and the consumption-entry count. -/
structure BudgetStatus where
  spent : ℚ
  remaining : ℚ
  queriesCount : ℕ
deriving DecidableEq, Repr

/-- Modelled from the spec: `getStatus()` returns spent, remaining
(`B - spent`), and the entry count. -/
def getStatus (m : PrivacyBudgetManager) : BudgetStatus :=
  ⟨m.spent, m.totalBudget - m.spent, m.entries.length⟩

/-- Run a sequence of consume requests (epsilon, operation label, actor)
against a ledger, threading the state and discarding the outcomes. -/
def runConsumes (m : PrivacyBudgetManager) :
    List (ℚ × String × String) → PrivacyBudgetManager
  | [] => m
  | r :: rs => runConsumes (consume m r.1 r.2.1 r.2.2).2 rs

theorem consume_totalBudget (m : PrivacyBudgetManager) (eps : ℚ)
    (op actor : String) :
    (consume m eps op actor).2.totalBudget = m.totalBudget := by
  unfold consume
  split <;> rfl

theorem consume_autoPause (m : PrivacyBudgetManager) (eps : ℚ)
    (op actor : String) :
    (consume m eps op actor).2.autoPause = m.autoPause := by
  unfold consume
  split <;> rfl

theorem runConsumes_totalBudget (ops : List (ℚ × String × String)) :
    ∀ m : PrivacyBudgetManager, (runConsumes m ops).totalBudget = m.totalBudget := by
  induction ops with
  | nil => intro m; rfl
  | cons r rs ih =>
    intro m
    rw [runConsumes, ih, consume_totalBudget]

/-- The sequential-composition ledger invariant: spent equals the sum of
the logged epsilons.  It is preserved by `consume`. -/
theorem consume_spent_sum {m : PrivacyBudgetManager}
    (h : m.spent = (m.entries.map BudgetEntry.epsilon).sum)
    (eps : ℚ) (op actor : String) :
    (consume m eps op actor).2.spent =
      ((consume m eps op actor).2.entries.map BudgetEntry.epsilon).sum := by
  unfold consume
  split
  · exact h
  · simp [h]

/-- An accepted `consume` increments spent by exactly its epsilon. -/
theorem consume_not_exhausted_spent (m : PrivacyBudgetManager) (eps : ℚ)
    (op actor : String)
    (h : (consume m eps op actor).1 ≠ ConsumeOutcome.exhausted) :
    (consume m eps op actor).2.spent = m.spent + eps := by
  unfold consume at h ⊢
  split_ifs at h ⊢ with hc
  · exact absurd rfl h
  · rfl

theorem runConsumes_spent_sum (ops : List (ℚ × String × String)) :
    ∀ m : PrivacyBudgetManager,
      m.spent = (m.entries.map BudgetEntry.epsilon).sum →
      (runConsumes m ops).spent =
        ((runConsumes m ops).entries.map BudgetEntry.epsilon).sum := by
  induction ops with
  | nil => intro m h; exact h
  | cons r rs ih =>
    intro m h
    exact ih _ (consume_spent_sum h r.1 r.2.1 r.2.2)

/-- Claim C2: with auto-pause enabled, a `consume` whose epsilon would push
spent past the total budget fails with `BudgetExhaustedError` and leaves
the ledger unchanged — same spent, same entry list, same status. -/
theorem consume_exhausted_no_state_change (m : PrivacyBudgetManager)
    (eps : ℚ) (op actor : String) (hap : m.autoPause = true)
    (hover : m.totalBudget < m.spent + eps) :
    consume m eps op actor = (ConsumeOutcome.exhausted, m) ∧
    (consume m eps op actor).2.spent = m.spent ∧
    (consume m eps op actor).2.entries = m.entries ∧
    getStatus (consume m eps op actor).2 = getStatus m := by
  have hcond : m.autoPause ∧ m.totalBudget < m.spent + eps := ⟨hap, hover⟩
  unfold consume
  rw [if_pos hcond]
  exact ⟨rfl, rfl, rfl, rfl⟩

/-- Concrete instance of the C2 theorem: a fresh 10.0 ledger rejecting an
11.0 consumption. -/
theorem consume_exhausted_no_state_change_witness :
    consume (mkManager "D1" 10 (1/5) true) 11 "generation" "alice" =
      (ConsumeOutcome.exhausted, mkManager "D1" 10 (1/5) true) ∧
    (consume (mkManager "D1" 10 (1/5) true) 11 "generation" "alice").2.spent =
      (mkManager "D1" 10 (1/5) true).spent ∧
    (consume (mkManager "D1" 10 (1/5) true) 11 "generation" "alice").2.entries =
      (mkManager "D1" 10 (1/5) true).entries ∧
    getStatus (consume (mkManager "D1" 10 (1/5) true) 11 "generation" "alice").2 =
      getStatus (mkManager "D1" 10 (1/5) true) :=
  consume_exhausted_no_state_change (mkManager "D1" 10 (1/5) true)
    11 "generation" "alice" rfl (by norm_num [mkManager])

/-- Claim C3: under sequential composition, two successful `consume` calls
on a fresh ledger yield spent = ε1 + ε2, and in general spent equals the
arithmetic sum of the epsilons of all recorded entries. -/
theorem consume_sequential_sum (dsid : String) (b w : ℚ) (ap : Bool) :
    (∀ e1 e2 : ℚ, ∀ o1 a1 o2 a2 : String,
      (consume (mkManager dsid b w ap) e1 o1 a1).1 ≠ ConsumeOutcome.exhausted →
      (consume (consume (mkManager dsid b w ap) e1 o1 a1).2 e2 o2 a2).1 ≠
        ConsumeOutcome.exhausted →
      (consume (consume (mkManager dsid b w ap) e1 o1 a1).2 e2 o2 a2).2.spent
        = e1 + e2) ∧
    ∀ ops : List (ℚ × String × String),
      (runConsumes (mkManager dsid b w ap) ops).spent =
        ((runConsumes (mkManager dsid b w ap) ops).entries.map
          BudgetEntry.epsilon).sum := by
  constructor
  · intro e1 e2 o1 a1 o2 a2 h1 h2
    have s1 := consume_not_exhausted_spent _ e1 o1 a1 h1
    have s2 := consume_not_exhausted_spent _ e2 o2 a2 h2
    rw [s2, s1]
    show (0 : ℚ) + e1 + e2 = e1 + e2
    ring
  · intro ops
    exact runConsumes_spent_sum ops _ (by simp [mkManager])

/-- Concrete instance of the C3 theorem: two 1.0 consumptions on a fresh
10.0 ledger spend exactly 2.0. -/
theorem consume_sequential_sum_witness :
    (consume (consume (mkManager "D1" 10 (1/5) true) 1 "gen" "a").2
        1 "audit" "b").2.spent = 1 + 1 :=
  (consume_sequential_sum "D1" 10 (1/5) true).1 1 1 "gen" "a" "audit" "b"
    (by norm_num [consume, mkManager]; simp)
    (by norm_num [consume, mkManager]; simp)

/-- Claim C9: on every ledger state reachable by consume calls from
construction with total budget `B`, the remaining figure of `getStatus`
equals `B` minus spent, so spent + remaining = B is an invariant. -/
theorem status_remaining_invariant (dsid : String) (b w : ℚ) (ap : Bool)
    (ops : List (ℚ × String × String)) :
    (getStatus (runConsumes (mkManager dsid b w ap) ops)).remaining =
      b - (runConsumes (mkManager dsid b w ap) ops).spent ∧
    (runConsumes (mkManager dsid b w ap) ops).spent +
      (getStatus (runConsumes (mkManager dsid b w ap) ops)).remaining = b := by
  have hb : (runConsumes (mkManager dsid b w ap) ops).totalBudget = b :=
    runConsumes_totalBudget ops (mkManager dsid b w ap)
  constructor
  · show (runConsumes (mkManager dsid b w ap) ops).totalBudget -
      (runConsumes (mkManager dsid b w ap) ops).spent = _
    rw [hb]
  · show (runConsumes (mkManager dsid b w ap) ops).spent +
      ((runConsumes (mkManager dsid b w ap) ops).totalBudget -
        (runConsumes (mkManager dsid b w ap) ops).spent) = b
    rw [hb]
    ring

/-! ## Regulatory compliance map of the privacy certificate -/

/-- Modelled from the spec: the booleans of the certificate's
regulatory-compliance map — anonymous (GDPR), de-identified (CCPA), and
safe-harbor (HIPAA).  The docs' additional OCC flag has no stated rule and
is not modelled. -/
structure RegulatoryCompliance where
  gdprAnonymous : Bool
  ccpaExempt : Bool
  hipaaSafeHarbor : Bool
deriving DecidableEq, Repr

/-- Modelled from the spec: the fixed rules deriving the map —
"anonymous" if epsilon ≤ 1.0, "de-identified" if achieved-k ≥ 5,
"safe-harbor" if both hold. -/
def regulatoryCompliance (eps : ℚ) (achievedK : ℕ) : RegulatoryCompliance :=
  { gdprAnonymous := decide (eps ≤ 1)
    ccpaExempt := decide (5 ≤ achievedK)
    hipaaSafeHarbor := decide (eps ≤ 1) && decide (5 ≤ achievedK) }

/-- Claim C8: in the certificate's regulatory-compliance map, anonymous
holds iff epsilon ≤ 1.0, de-identified holds iff achieved-k ≥ 5, and
safe-harbor holds iff both hold. -/
theorem regulatory_compliance_rules (eps : ℚ) (achievedK : ℕ) :
    ((regulatoryCompliance eps achievedK).gdprAnonymous = true ↔ eps ≤ 1) ∧
    ((regulatoryCompliance eps achievedK).ccpaExempt = true ↔ 5 ≤ achievedK) ∧
    ((regulatoryCompliance eps achievedK).hipaaSafeHarbor = true ↔
      ((regulatoryCompliance eps achievedK).gdprAnonymous = true ∧
       (regulatoryCompliance eps achievedK).ccpaExempt = true)) := by
  simp [regulatoryCompliance]

/-! ## Correlation model (Gaussian copula engine)

The engine's numerics in the docs use floating point (`norm.ppf`,
`np.corrcoef`); this embedding replaces the standard-normal quantile and
CDF by exact monotone rational surrogates and Pearson normalization by
covariance.  Claims C6 and C7 depend only on the error condition of `fit`
and on the determinism and read-only state of `sample`, not on these
numeric values. -/

/-- Modelled from the spec: a numeric column for fitting — a name and its
cell values, `none` marking a missing value. -/
abbrev NumCol := String × List (Option ℚ)

/-- Modelled from the spec: the numeric table consumed by `fit`
(categorical columns are excluded from the copula). -/
abbrev NumTable := List NumCol

/-- The non-missing values of a column. -/
def nonMissing (c : NumCol) : List ℚ :=
  c.2.filterMap id

/-- Insert into a sorted list of rationals. -/
def insertSorted (q : ℚ) : List ℚ → List ℚ
  | [] => [q]
  | x :: xs => if q ≤ x then q :: x :: xs else x :: insertSorted q xs

/-- Sort a list of rationals ascending (insertion sort). -/
def sortQ (l : List ℚ) : List ℚ :=
  l.foldr insertSorted []

/-- Sample variance of a list of rationals (0 when fewer than 2 values);
stands in for the stored standard deviation, whose square root is
irrational. -/
def qVar (l : List ℚ) : ℚ :=
  if l.length ≤ 1 then 0
  else ((l.map (fun x => (x - qMean l) ^ 2)).sum) / ((l.length : ℚ) - 1)

/-- Sample covariance of two equally long lists (0 when fewer than 2
values); the correlation-matrix surrogate entry. -/
def qCov (x y : List ℚ) : ℚ :=
  if x.length ≤ 1 then 0
  else (((x.zip y).map (fun p => (p.1 - qMean x) * (p.2 - qMean y))).sum) /
    ((x.length : ℚ) - 1)

/-- Clamp a rational into `[lo, hi]`. -/
def clampQ (lo hi v : ℚ) : ℚ :=
  max lo (min hi v)

/-- Modelled from the spec: the rank-based empirical-CDF uniform score of
`v` among the observed values `s`, ties broken by average rank. -/
def avgRankU (s : List ℚ) (v : ℚ) : ℚ :=
  if s.length = 0 then 0
  else (((s.filter (fun w => decide (w < v))).length : ℚ) +
        (((s.filter (fun w => decide (w = v))).length : ℚ) + 1) / 2) /
    (s.length : ℚ)

/-- Monotone rational surrogate for the standard-normal quantile
(`norm.ppf`): 0 at 1/2, unbounded toward 0 and 1. -/
def probitS (u : ℚ) : ℚ :=
  (2 * u - 1) / (u * (1 - u))

/-- Monotone rational surrogate for the standard-normal CDF, mapping into
(0, 1) with value 1/2 at 0. -/
def cdfS (z : ℚ) : ℚ :=
  1 / 2 + z / (2 * (1 + |z|))

/-- Modelled from the spec: the per-column marginal descriptor — sorted
empirical values, min, max, mean, and dispersion (`sd2`, the variance,
standing in for the irrational standard deviation). -/
structure Marginal where
  values : List ℚ
  mn : ℚ
  mx : ℚ
  mean : ℚ
  sd2 : ℚ
deriving DecidableEq, Repr

/-- Modelled from the spec: the fitted state of the correlation model —
per-column marginal descriptors and the pairwise matrix computed on
latent-transformed data; "created by fit(Table); immutable thereafter". -/
structure FittedModel where
  marginals : List (String × Marginal)
  corr : List (List ℚ)
deriving DecidableEq, Repr

/-- Modelled from the spec: the error taxonomy relevant to fitting. -/
inductive FitError
  | insufficientData
deriving DecidableEq, Repr

/-- Modelled from the spec: the fitting computation — empirical marginals,
rank-based uniform scores clamped to (1e-10, 1-1e-10), the latent
transform, and the pairwise matrix of the latent columns (missing values
enter the latent transform at the column mean). -/
def fitModel (t : NumTable) : FittedModel :=
  let latent := t.map (fun c =>
    let vals := nonMissing c
    c.2.map (fun o =>
      probitS (clampQ (1 / 10 ^ 10) (1 - 1 / 10 ^ 10)
        (avgRankU vals (o.getD (qMean vals))))))
  { marginals := t.map (fun c =>
      let vals := sortQ (nonMissing c)
      (c.1, { values := vals, mn := qListMin vals, mx := qListMax vals,
              mean := qMean vals, sd2 := qVar vals }))
    corr := latent.map (fun x => latent.map (fun y => qCov x y)) }

/-- Modelled from the spec: `fit(table)` — "Fails with
InsufficientDataError if a column has fewer than 2 non-missing values
(marginal and correlation undefined)"; otherwise produces the fitted
model. -/
def fit (t : NumTable) : Except FitError FittedModel :=
  if ∀ c ∈ t, 2 ≤ (nonMissing c).length then Except.ok (fitModel t)
  else Except.error FitError.insufficientData

/-- Step of the linear congruential generator driving sampling. -/
def lcgNext (s : ℕ) : ℕ :=
  (1103515245 * s + 12345) % 2147483648

/-- The first `n` states of the generator from a seed. -/
def lcgStream : ℕ → ℕ → List ℕ
  | 0, _ => []
  | n + 1, s => lcgNext s :: lcgStream n (lcgNext s)

/-- `n` uniform scores in (0, 1) derived deterministically from a seed,
clamped like the fitting transform. -/
def uniformsFrom (n seed : ℕ) : List ℚ :=
  (lcgStream n seed).map (fun s =>
    clampQ (1 / 10 ^ 10) (1 - 1 / 10 ^ 10) ((s : ℚ) / 2147483648))

/-- Modelled from the spec: the empirical inverse CDF of a marginal —
linear interpolation between the stored sorted values, extrapolated by
clamping to the observed min and max. -/
def invECDF (m : Marginal) (u : ℚ) : ℚ :=
  match m.values with
  | [] => 0
  | v0 :: vs =>
    let pos := u * (((v0 :: vs).length : ℚ) - 1)
    let i := Int.toNat (Rat.floor pos)
    let a := (v0 :: vs).getD i v0
    let b := (v0 :: vs).getD (i + 1) a
    clampQ m.mn m.mx (a + (pos - (Rat.floor pos : ℚ)) * (b - a))

/-- Mix a latent vector through the stored matrix. -/
def matVecS (mat : List (List ℚ)) (z : List ℚ) : List ℚ :=
  mat.map (fun row => ((row.zip z).map (fun p => p.1 * p.2)).sum)

/-- One sampled row: uniforms to latents, mixed through the stored matrix,
then back through the CDF surrogate and each column's empirical inverse
CDF. -/
def sampleRowOf (mdl : FittedModel) (us : List ℚ) : Row :=
  ((mdl.marginals).zip (matVecS mdl.corr (us.map probitS))).map
    (fun p => (p.1.1, Value.num (invECDF p.1.2
      (clampQ (1 / 10 ^ 10) (1 - 1 / 10 ^ 10) (cdfS p.2)))))

/-- Modelled from the spec: `sample(n)` with a fixed seed — a pure
function of the fitted state, the count and the seed. -/
def sample (mdl : FittedModel) (n seed : ℕ) : Table :=
  let d := mdl.marginals.length
  let us := uniformsFrom (n * d) seed
  (List.range n).map (fun i => sampleRowOf mdl ((us.drop (i * d)).take d))

/-- Modelled from the spec: a `sample(n)` method call with explicit state
threading; the contract makes the fitted state read-only after fit
("immutable thereafter", "does not mutate fitted state"), so the call
passes the fitted model through unchanged. -/
def sampleCall (mdl : FittedModel) (n seed : ℕ) : Table × FittedModel :=
  (sample mdl n seed, mdl)

/-- Claim C6: `fit` fails with `InsufficientDataError` exactly when some
numeric column has fewer than 2 non-missing values; with all columns at 2
or more it does not raise this error. -/
theorem fit_insufficient_iff (t : NumTable) :
    fit t = Except.error FitError.insufficientData ↔
      ∃ c ∈ t, (nonMissing c).length < 2 := by
  unfold fit
  split_ifs with h
  · constructor
    · intro he
      cases he
    · rintro ⟨c, hc, hlt⟩
      exact absurd (h c hc) (by omega)
  · constructor
    · intro _
      push_neg at h
      obtain ⟨c, hc, hl⟩ := h
      exact ⟨c, hc, by omega⟩
    · intro _
      rfl

/-- Claim C7: with a fixed seed, two invocations of `sample(n)` return
identical tables, and the fitted state after any sample call equals the
state before it (the call is read-only). -/
theorem sample_deterministic_no_mutation (mdl : FittedModel) (n seed : ℕ) :
    (sampleCall (sampleCall mdl n seed).2 n seed).1 = (sampleCall mdl n seed).1 ∧
    (sampleCall mdl n seed).2 = mdl ∧
    (sampleCall (sampleCall mdl n seed).2 n seed).2 = mdl :=
  ⟨rfl, rfl, rfl⟩

end Pratibimba
